import Mathlib

/-!
Verification of the flight-steering and particle-lifecycle core of the
3D paper-plane cursor animation (src/index.tsx, `PaperPlane` component).

The simulation is shallowly embedded over exact rationals.  The source
mutates three.js `Vector3` values; here vectors are an immutable `Vec3`
record over `ℚ` and each three.js method used by the core
(`subVectors`, `add`, `multiplyScalar`, `addScaledVector`, `normalize`,
`clampLength`, `lengthSq`, `dot`) is rendered as a pure function.

Square roots are not rational, so every place the source calls
`.length()` is parameterised by an oracle value `L` constrained in the
theorems by `0 ≤ L ∧ L ^ 2 = v.lengthSq` — exactly the defining
property of the Euclidean length.  three.js `normalize` and
`clampLength` divide by `length || 1`, so the zero-length case divides
by 1; `normalizeWith`/`clampLengthWith` mirror that guard.
-/

namespace PaperPlane

/-- A 3-component vector over exact rationals (three.js `Vector3`). -/
structure Vec3 where
  x : ℚ
  y : ℚ
  z : ℚ
  deriving DecidableEq, Repr

namespace Vec3

/-- The zero vector (`new THREE.Vector3()`). -/
def zero : Vec3 := ⟨0, 0, 0⟩

/-- `a.sub(b)` / `subVectors(a, b)`: componentwise difference. -/
def sub (a b : Vec3) : Vec3 := ⟨a.x - b.x, a.y - b.y, a.z - b.z⟩

/-- `a.add(b)` / `addVectors(a, b)`: componentwise sum. -/
def add (a b : Vec3) : Vec3 := ⟨a.x + b.x, a.y + b.y, a.z + b.z⟩

/-- `v.multiplyScalar(c)`. -/
def multiplyScalar (v : Vec3) (c : ℚ) : Vec3 := ⟨v.x * c, v.y * c, v.z * c⟩

/-- `a.addScaledVector(b, c)`: `a + b * c`. -/
def addScaledVector (a b : Vec3) (c : ℚ) : Vec3 := a.add (b.multiplyScalar c)

/-- `v.lengthSq()`: squared Euclidean norm. -/
def lengthSq (v : Vec3) : ℚ := v.x ^ 2 + v.y ^ 2 + v.z ^ 2

/-- `a.dot(b)`. -/
def dot (a b : Vec3) : ℚ := a.x * b.x + a.y * b.y + a.z * b.z

/-- `v.normalize()` given the oracle length `L` of `v`:
three.js divides by `this.length() || 1`, so a zero-length vector is
divided by 1 and returned unchanged (it is the zero vector). -/
def normalizeWith (v : Vec3) (L : ℚ) : Vec3 :=
  if L = 0 then v else v.multiplyScalar (1 / L)

/-- `v.clampLength(lo, hi)` given the oracle length `L` of `v`:
three.js computes `this.divideScalar(length || 1).multiplyScalar(max(lo, min(hi, length)))`. -/
def clampLengthWith (v : Vec3) (L lo hi : ℚ) : Vec3 :=
  v.multiplyScalar (max lo (min hi L) / (if L = 0 then 1 else L))

end Vec3

/-- The steering configuration (`flightParams` object in `animate`'s
enclosing scope).  The `bankFactor`/`maxBank` fields only feed the
rendered orientation (quaternion slerp), which is outside the steering
state this development models, so they are not embedded. -/
structure FlightParams where
  maxSpeed : ℚ
  maxForce : ℚ
  damping : ℚ
  slowingRadius : ℚ
  deriving Repr

/-- The source's `flightParams` literal: `maxForce: 25`,
`damping: 0.98`, `slowingRadius: 300`, with `maxSpeed` a prop
(default 800). -/
def flightParams (maxSpeed : ℚ) : FlightParams :=
  { maxSpeed := maxSpeed, maxForce := 25, damping := 49 / 50, slowingRadius := 300 }

/-- The mutable plane physics record `state.plane`. -/
structure PlaneState where
  position : Vec3
  velocity : Vec3
  acceleration : Vec3
  deriving DecidableEq, Repr

/-- Arrival desired speed:
`let desiredSpeed = maxSpeed; if (distance < slowingRadius) desiredSpeed = maxSpeed * (distance / slowingRadius)`. -/
def desiredSpeed (maxSpeed slowingRadius distance : ℚ) : ℚ :=
  if distance < slowingRadius then maxSpeed * (distance / slowingRadius) else maxSpeed

/-- `_desiredVelocity.subVectors(target, position); ... .normalize().multiplyScalar(desiredSpeed * delta)`,
with `dist` the oracle length of `target - position`. -/
def desiredVelocity (P : FlightParams) (target position : Vec3) (dist delta : ℚ) : Vec3 :=
  ((target.sub position).normalizeWith dist).multiplyScalar
    (desiredSpeed P.maxSpeed P.slowingRadius dist * delta)

/-- `_steeringForce.subVectors(_desiredVelocity, plane.velocity); _steeringForce.clampLength(0, maxForce * delta)`,
with `fLen` the oracle length of the un-clamped steering force. -/
def steeringForce (P : FlightParams) (target : Vec3) (pl : PlaneState)
    (delta dist fLen : ℚ) : Vec3 :=
  ((desiredVelocity P target pl.position dist delta).sub pl.velocity).clampLengthWith
    fLen 0 (P.maxForce * delta)

/-- One steering integration step (src/index.tsx lines 747–760):
accumulate the clamped steering force into the acceleration, add the
acceleration to the velocity, damp the velocity, advance the position
by the damped velocity, and zero the acceleration. -/
def steerStep (P : FlightParams) (target : Vec3) (pl : PlaneState)
    (delta dist fLen : ℚ) : PlaneState :=
  let F := steeringForce P target pl delta dist fLen
  let acceleration := pl.acceleration.add F
  let velocity := (pl.velocity.add acceleration).multiplyScalar P.damping
  { position := pl.position.add velocity
    velocity := velocity
    acceleration := Vec3.zero }

/-- A trail particle (`state.trailParticles` slot): `{position, velocity, life, maxLife}`. -/
structure Particle where
  position : Vec3
  velocity : Vec3
  life : ℚ
  maxLife : ℚ
  deriving DecidableEq, Repr

/-- Placeholder slot used only to totalise out-of-range pool reads in
the embedding; the source never indexes outside the pool. -/
def Particle.defaultSlot : Particle := ⟨Vec3.zero, Vec3.zero, 0, 0⟩

/-- `const MAX_PARTICLES = 1000`. -/
def MAX_PARTICLES : ℕ := 1000

/-- Emission into one pool slot (src/index.tsx lines 797–801):
`p.position.copy(_worldTailPosition); p.velocity.copy(plane.velocity).multiplyScalar(-0.1 / delta); p.life = p.maxLife`.
`planeVelocity` is the plane's stored per-frame displacement;
`worldTailPosition` is the tail offset taken through
`planeGroup.matrixWorld`, supplied as an oracle since the rendered
matrix (orientation) is outside the embedded state.  The slot's
`maxLife` is fixed at pool construction and left unchanged. -/
def emitParticle (planeVelocity worldTailPosition : Vec3) (delta : ℚ)
    (p : Particle) : Particle :=
  { position := worldTailPosition
    velocity := planeVelocity.multiplyScalar (-(1 / 10) / delta)
    life := p.maxLife
    maxLife := p.maxLife }

/-- One per-particle update of the aging loop (src/index.tsx lines
811–825), returning the updated particle together with the alpha
written into the `alpha` attribute for that slot.  `noise` stands for
`state.noise.noise3D` (its permutation table is randomized per run, so
it is universally quantified); `noiseScale = 0.02`, the noise time is
`elapsedTime * 0.8` (`+ 100` on the second axis), `noiseStrength = 350`,
and the drag factor is `1 - 1.5 * delta`. -/
def updateParticleFrame (noise : ℚ → ℚ → ℚ → ℚ) (elapsedTime delta : ℚ)
    (p : Particle) : Particle × ℚ :=
  if 0 < p.life then
    let life := p.life - delta
    let t := max 0 (life / p.maxLife)
    let alpha := t ^ 2
    let noiseTime := elapsedTime * (4 / 5)
    let nx := noise (p.position.x * (1 / 50)) (p.position.y * (1 / 50)) noiseTime
    let ny := noise (p.position.y * (1 / 50)) (p.position.x * (1 / 50)) (noiseTime + 100)
    let force := (Vec3.mk nx ny 0).multiplyScalar 350
    let velocity := p.velocity.addScaledVector force delta
    let position := p.position.addScaledVector velocity delta
    let velocity := velocity.multiplyScalar (1 - (3 / 2) * delta)
    (⟨position, velocity, life, p.maxLife⟩, alpha)
  else
    (p, 0)

/-- Writing an emission into the pool at the current write cursor:
`state.trailParticles[particleIndex]` is overwritten in place,
whether or not its previous particle has expired. -/
def emitIntoPool (pool : List Particle) (cursor : ℕ)
    (planeVelocity worldTailPosition : Vec3) (delta : ℚ) : List Particle :=
  pool.set cursor
    (emitParticle planeVelocity worldTailPosition delta
      (pool.getD cursor Particle.defaultSlot))

/-- The per-session mutable simulation state (`state` ref plus the
loop-local `particleIndex` write cursor).  `alphas` is the per-slot
alpha buffer handed to the renderer, fully rewritten every frame;
`emitCount` is a ghost observer counting emission events. -/
structure SysState where
  mouseTarget : Vec3
  plane : PlaneState
  trailParticles : List Particle
  alphas : List ℚ
  lastEmitTime : ℚ
  hasMoved : Bool
  particleIndex : ℕ
  emitCount : ℕ

/-- Initial session state: zero vectors, `life: 0` in every slot,
`lastEmitTime: 0`, `hasMoved: false`, cursor 0.  `maxLifes` models the
per-slot `Math.random() * 2.0 + 1.5` draws made once at pool
construction. -/
def initState (maxLifes : List ℚ) : SysState :=
  { mouseTarget := Vec3.zero
    plane := ⟨Vec3.zero, Vec3.zero, Vec3.zero⟩
    trailParticles := maxLifes.map fun m => ⟨Vec3.zero, Vec3.zero, 0, m⟩
    alphas := maxLifes.map fun _ => 0
    lastEmitTime := 0
    hasMoved := false
    particleIndex := 0
    emitCount := 0 }

/-- Per-frame inputs outside the embedded state: the raw
`clock.getDelta()`, `clock.getElapsedTime()`, the three `.length()`
oracles (`dist` for `target - position`, `fLen` for the un-clamped
steering force, `vLen` for the post-steering velocity used by the
emission-rate speed), the world-space tail position, and the run's
noise function. -/
structure FrameOracle where
  rawDelta : ℚ
  elapsedTime : ℚ
  dist : ℚ
  fLen : ℚ
  vLen : ℚ
  tailPos : Vec3
  noise : ℚ → ℚ → ℚ → ℚ

/-- `const delta = Math.min(clock.getDelta(), 0.1)`. -/
def clampedDelta (rawDelta : ℚ) : ℚ := min rawDelta (1 / 10)

/-- One `animate` frame (src/index.tsx lines 738–828) restricted to the
simulation state: clamp the delta and return unchanged on a zero
delta; run the steering step; emit a trail particle when
`hasMoved && speed > 10 && elapsedTime - lastEmitTime > emitInterval`
with `speed = |velocity| / delta` and
`emitInterval = 1 / (min(speed / 10, 100) + 20)`, advancing the write
cursor mod `MAX_PARTICLES`; then age every particle and rewrite the
alpha buffer.  Rendering-only work (mesh poses, orientation slerp,
shader uniforms, parallax) has no effect on this state and is omitted. -/
def frameStep (P : FlightParams) (o : FrameOracle) (s : SysState) : SysState :=
  let delta := clampedDelta o.rawDelta
  if delta = 0 then s
  else
    let plane := steerStep P s.mouseTarget s.plane delta o.dist o.fLen
    let speed := o.vLen / delta
    let emitInterval := 1 / (min (speed / 10) 100 + 20)
    let s1 :=
      if s.hasMoved = true ∧ 10 < speed ∧ emitInterval < o.elapsedTime - s.lastEmitTime then
        { s with
          plane := plane
          lastEmitTime := o.elapsedTime
          trailParticles :=
            emitIntoPool s.trailParticles s.particleIndex plane.velocity o.tailPos delta
          particleIndex := (s.particleIndex + 1) % MAX_PARTICLES
          emitCount := s.emitCount + 1 }
      else { s with plane := plane }
    let updated := s1.trailParticles.map (updateParticleFrame o.noise o.elapsedTime delta)
    { s1 with
      trailParticles := updated.map Prod.fst
      alphas := updated.map Prod.snd }

/-- External events reaching the simulation: `mousemove`
(`handleMouseMove` sets `hasMoved` and writes `mouseTarget.x/.y`,
never `.z`) and animation frames. -/
inductive Event where
  | mouseMove (x y : ℚ)
  | frame (o : FrameOracle)

/-- Dispatch one event against the session state. -/
def stepEvent (P : FlightParams) : Event → SysState → SysState
  | .mouseMove x y, s =>
      { s with hasMoved := true, mouseTarget := ⟨x, y, s.mouseTarget.z⟩ }
  | .frame o, s => frameStep P o s

/-- Run a sequence of events from a starting state. -/
def runEvents (P : FlightParams) (events : List Event) (s : SysState) : SysState :=
  events.foldl (fun s e => stepEvent P e s) s

/-! ### Helper lemmas about the vector operations -/

lemma Vec3.lengthSq_nonneg (v : Vec3) : 0 ≤ v.lengthSq := by
  have hx := sq_nonneg v.x
  have hy := sq_nonneg v.y
  have hz := sq_nonneg v.z
  simp only [Vec3.lengthSq]
  linarith

lemma Vec3.lengthSq_eq_zero {v : Vec3} (h : v.lengthSq = 0) : v = Vec3.zero := by
  obtain ⟨x, y, z⟩ := v
  simp only [Vec3.lengthSq] at h
  have hx : x ^ 2 = 0 := by nlinarith [sq_nonneg x, sq_nonneg y, sq_nonneg z]
  have hy : y ^ 2 = 0 := by nlinarith [sq_nonneg x, sq_nonneg y, sq_nonneg z]
  have hz : z ^ 2 = 0 := by nlinarith [sq_nonneg x, sq_nonneg y, sq_nonneg z]
  simp only [Vec3.zero, Vec3.mk.injEq]
  exact ⟨pow_eq_zero_iff two_ne_zero |>.mp hx,
         pow_eq_zero_iff two_ne_zero |>.mp hy,
         pow_eq_zero_iff two_ne_zero |>.mp hz⟩

lemma Vec3.lengthSq_multiplyScalar (v : Vec3) (c : ℚ) :
    (v.multiplyScalar c).lengthSq = c ^ 2 * v.lengthSq := by
  simp only [Vec3.multiplyScalar, Vec3.lengthSq]
  ring

lemma Vec3.multiplyScalar_zero_vec (c : ℚ) :
    Vec3.zero.multiplyScalar c = Vec3.zero := by
  simp [Vec3.multiplyScalar, Vec3.zero]

lemma Vec3.zero_add_vec (v : Vec3) : Vec3.zero.add v = v := by
  simp [Vec3.add, Vec3.zero]

/-- Cauchy–Schwarz for the embedded 3-vectors, via the Lagrange identity. -/
lemma Vec3.dot_sq_le (a b : Vec3) : (a.dot b) ^ 2 ≤ a.lengthSq * b.lengthSq := by
  simp only [Vec3.dot, Vec3.lengthSq]
  nlinarith [sq_nonneg (a.x * b.y - a.y * b.x), sq_nonneg (a.x * b.z - a.z * b.x),
             sq_nonneg (a.y * b.z - a.z * b.y)]

lemma Vec3.dot_le_of_lengths (a b : Vec3) (La Lb : ℚ)
    (ha0 : 0 ≤ La) (ha : La ^ 2 = a.lengthSq) (hb0 : 0 ≤ Lb) (hb : Lb ^ 2 = b.lengthSq) :
    a.dot b ≤ La * Lb := by
  have h1 := Vec3.dot_sq_le a b
  rw [← ha, ← hb] at h1
  have h2 : 0 ≤ La * Lb := mul_nonneg ha0 hb0
  nlinarith [h1, h2]

/-- Triangle inequality on squared lengths with explicit length oracles. -/
lemma Vec3.lengthSq_add_le (a b : Vec3) (La Lb : ℚ)
    (ha0 : 0 ≤ La) (ha : La ^ 2 = a.lengthSq) (hb0 : 0 ≤ Lb) (hb : Lb ^ 2 = b.lengthSq) :
    (a.add b).lengthSq ≤ (La + Lb) ^ 2 := by
  have hd := Vec3.dot_le_of_lengths a b La Lb ha0 ha hb0 hb
  have hexp : (a.add b).lengthSq = a.lengthSq + 2 * a.dot b + b.lengthSq := by
    simp only [Vec3.add, Vec3.lengthSq, Vec3.dot]
    ring
  rw [hexp, ← ha, ← hb]
  nlinarith [hd]

/-- The squared length of a `clampLength(0, hi)` result is exactly
`(max 0 (min hi L))²` when `L` is the vector's true length. -/
lemma Vec3.clampLengthWith_lengthSq (v : Vec3) (L hi : ℚ)
    (hL0 : 0 ≤ L) (hL : L ^ 2 = v.lengthSq) (hhi : 0 ≤ hi) :
    (v.clampLengthWith L 0 hi).lengthSq = (max 0 (min hi L)) ^ 2 := by
  unfold Vec3.clampLengthWith
  by_cases h : L = 0
  · subst h
    have hv : v.lengthSq = 0 := by rw [← hL]; ring
    rw [Vec3.lengthSq_multiplyScalar, hv, mul_zero]
    rw [min_eq_right hhi]
    simp
  · have hLpos : 0 < L := lt_of_le_of_ne hL0 (Ne.symm h)
    rw [if_neg h, Vec3.lengthSq_multiplyScalar, ← hL, div_pow]
    field_simp

/-! ### Claim theorems -/

/-- Claim C1: the arrival desired speed equals `maxSpeed` when the
distance to the target is at least `slowingRadius`, and
`maxSpeed * (distance / slowingRadius)` otherwise; in particular with
`slowingRadius = 300, maxSpeed = 800`, distance 500 gives 800 and
distance 150 gives 400. -/
theorem desiredSpeed_arrival_falloff (maxSpeed slowingRadius dist : ℚ) :
    ((slowingRadius ≤ dist → desiredSpeed maxSpeed slowingRadius dist = maxSpeed) ∧
     (dist < slowingRadius →
       desiredSpeed maxSpeed slowingRadius dist = maxSpeed * (dist / slowingRadius))) ∧
    desiredSpeed 800 300 500 = 800 ∧ desiredSpeed 800 300 150 = 400 := by
  refine ⟨⟨fun h => ?_, fun h => ?_⟩, by norm_num [desiredSpeed], by norm_num [desiredSpeed]⟩
  · rw [desiredSpeed, if_neg (not_lt.mpr h)]
  · rw [desiredSpeed, if_pos h]

/-- Witness for C1 at the spec's first scenario (distance 500,
`slowingRadius = 300`, `maxSpeed = 800`). -/
theorem desiredSpeed_arrival_falloff_witness :
    (300 : ℚ) ≤ 500 ∧ desiredSpeed 800 300 500 = 800 :=
  ⟨by norm_num, (desiredSpeed_arrival_falloff 800 300 500).1.1 (by norm_num)⟩

/-- Claim C3: with the target equal to the current position the
distance is 0, and the desired velocity of the steering step is the
zero vector for every positive delta — the zero-length `normalize`
divides by `length || 1 = 1`, so no division by zero occurs. -/
theorem desired_velocity_zero_at_target (P : FlightParams) (pos : Vec3) (dist d : ℚ)
    (hd : 0 < d) (hL0 : 0 ≤ dist) (hL : dist ^ 2 = (pos.sub pos).lengthSq) :
    desiredVelocity P pos pos dist d = Vec3.zero := by
  have hsub : pos.sub pos = Vec3.zero := by simp [Vec3.sub, Vec3.zero]
  have hdist : dist = 0 := by
    have h0 : dist ^ 2 = 0 := by rw [hL, hsub]; simp [Vec3.lengthSq, Vec3.zero]
    exact pow_eq_zero_iff two_ne_zero |>.mp h0
  subst hdist
  simp [desiredVelocity, hsub, Vec3.normalizeWith, Vec3.multiplyScalar_zero_vec]

/-- Witness for C3 at position `(5, 7, 0)` and delta 1. -/
theorem desired_velocity_zero_at_target_witness :
    desiredVelocity (flightParams 800) ⟨5, 7, 0⟩ ⟨5, 7, 0⟩ 0 1 = Vec3.zero :=
  desired_velocity_zero_at_target (flightParams 800) ⟨5, 7, 0⟩ 0 1 (by norm_num)
    (by norm_num) (by norm_num [Vec3.sub, Vec3.lengthSq])

/-- Claim C5: a particle emitted while the plane's per-second velocity
is `v` (so its stored per-frame displacement is `v * delta`, the code's
own reading `speed = velocity.length() / delta`) stores velocity
`-0.1 * v`: reversed and scaled down by the reference constant 0.1. -/
theorem emit_velocity_reversed_scaled (d : ℚ) (v tail : Vec3) (p : Particle)
    (hd : 0 < d) :
    (emitParticle (v.multiplyScalar d) tail d p).velocity = v.multiplyScalar (-(1 / 10)) := by
  have hd' : d ≠ 0 := ne_of_gt hd
  simp only [emitParticle, Vec3.multiplyScalar, Vec3.mk.injEq]
  refine ⟨?_, ?_, ?_⟩ <;> field_simp <;> ring

/-- Witness for C5 at the spec scenario: emitter velocity `(0, 0, -100)`
(delta 0.1) stores particle velocity `(0, 0, 10)`. -/
theorem emit_velocity_reversed_scaled_witness :
    0 < (1 : ℚ) / 10 ∧
    (emitParticle (Vec3.multiplyScalar ⟨0, 0, -100⟩ (1 / 10)) Vec3.zero (1 / 10)
        Particle.defaultSlot).velocity = ⟨0, 0, 10⟩ :=
  ⟨by norm_num,
   (emit_velocity_reversed_scaled (1 / 10) ⟨0, 0, -100⟩ Vec3.zero Particle.defaultSlot
      (by norm_num)).trans (by norm_num [Vec3.multiplyScalar])⟩

/-- Claim C6: the alpha written for a slot is `((life - delta)/maxLife)²`
when the decremented life is still positive, and 0 for every other slot
(inactive or expiring this frame). -/
theorem particle_alpha_quadratic_fade (noise : ℚ → ℚ → ℚ → ℚ) (eT delta : ℚ)
    (p : Particle) (hm : 0 < p.maxLife) :
    (updateParticleFrame noise eT delta p).2 =
      if 0 < p.life ∧ 0 < p.life - delta then ((p.life - delta) / p.maxLife) ^ 2 else 0 := by
  by_cases h1 : 0 < p.life
  · by_cases h2 : 0 < p.life - delta
    · have hq : 0 ≤ (p.life - delta) / p.maxLife := le_of_lt (div_pos h2 hm)
      simp [updateParticleFrame, h1, h2, max_eq_right hq]
    · have hq : (p.life - delta) / p.maxLife ≤ 0 :=
        div_nonpos_iff.mpr (Or.inr ⟨le_of_not_lt h2, le_of_lt hm⟩)
      simp [updateParticleFrame, h1, h2, max_eq_left hq]
  · simp [updateParticleFrame, h1]

/-- Witness for C6 at the spec scenario: decremented life 0.4 with
`maxLife = 2.0` reports alpha `0.04 = 1/25`. -/
theorem particle_alpha_quadratic_fade_witness :
    0 < (2 : ℚ) ∧
    (updateParticleFrame (fun _ _ _ => 0) 0 (1 / 10)
        ⟨Vec3.zero, Vec3.zero, 1 / 2, 2⟩).2 = 1 / 25 :=
  ⟨by norm_num,
   by rw [particle_alpha_quadratic_fade (fun _ _ _ => 0) 0 (1 / 10)
            ⟨Vec3.zero, Vec3.zero, 1 / 2, 2⟩ (by norm_num)]
      norm_num⟩

/-- Claim C9: the delta used by a frame is `min(getDelta(), 0.1) ≤ 0.1`,
and a frame whose clamped delta is exactly 0 returns the state
unchanged (no steering, integration, emission, or aging). -/
theorem delta_clamped_and_zero_delta_noop :
    (∀ raw : ℚ, clampedDelta raw ≤ 1 / 10) ∧
    ∀ (P : FlightParams) (o : FrameOracle) (s : SysState),
      clampedDelta o.rawDelta = 0 → frameStep P o s = s := by
  refine ⟨fun raw => min_le_right _ _, fun P o s h => ?_⟩
  simp [frameStep, h]

/-- Witness for C9: a frame with raw delta 0 leaves the initial state
untouched. -/
theorem delta_clamped_and_zero_delta_noop_witness :
    clampedDelta 0 = 0 ∧
    frameStep (flightParams 800) ⟨0, 0, 0, 0, 0, Vec3.zero, fun _ _ _ => 0⟩ (initState []) =
      initState [] :=
  ⟨by norm_num [clampedDelta],
   delta_clamped_and_zero_delta_noop.2 (flightParams 800)
     ⟨0, 0, 0, 0, 0, Vec3.zero, fun _ _ _ => 0⟩ (initState [])
     (by norm_num [clampedDelta])⟩

/-- Claim C4 counterexample: the aging loop decrements `p.life -= delta`
without clamping at 0, so a particle in a valid state (`life = 0.05`,
`maxLife = 2`) leaves the claimed range `[0, maxLife]` after a frame of
delta `0.1`: its stored life becomes `-0.05 < 0`. -/
theorem particle_life_range_counterexample :
    (0 ≤ (Particle.mk Vec3.zero Vec3.zero (1 / 20) 2).life ∧
      (Particle.mk Vec3.zero Vec3.zero (1 / 20) 2).life ≤
        (Particle.mk Vec3.zero Vec3.zero (1 / 20) 2).maxLife) ∧
    ((updateParticleFrame (fun _ _ _ => 0) 0 (1 / 10)
        (Particle.mk Vec3.zero Vec3.zero (1 / 20) 2)).1).life < 0 := by
  refine ⟨⟨by norm_num, by norm_num⟩, ?_⟩
  norm_num [updateParticleFrame]

/-- Claim C4 (amended): between emissions a particle's life is
monotonically non-increasing — decremented by exactly `delta` while
positive and unchanged (with the particle receiving no displacement and
reporting alpha 0) once non-positive; it never exceeds `maxLife` if it
started below it, and only an emission sets it to the slot's `maxLife`.
However life is not clamped at 0: on the frame where the particle
expires it may become negative, bounded below by `-delta`. -/
theorem particle_life_amended_invariant (noise : ℚ → ℚ → ℚ → ℚ) (eT delta : ℚ)
    (v tail : Vec3) (p : Particle) (hd : 0 ≤ delta) :
    (0 < p.life → ((updateParticleFrame noise eT delta p).1).life = p.life - delta) ∧
    (p.life ≤ 0 → (updateParticleFrame noise eT delta p).1 = p ∧
      (updateParticleFrame noise eT delta p).2 = 0) ∧
    ((updateParticleFrame noise eT delta p).1).life ≤ p.life ∧
    (p.life ≤ p.maxLife → ((updateParticleFrame noise eT delta p).1).life ≤ p.maxLife) ∧
    (0 ≤ p.life → -delta ≤ ((updateParticleFrame noise eT delta p).1).life) ∧
    (emitParticle v tail delta p).life = p.maxLife := by
  by_cases h : 0 < p.life
  · refine ⟨fun _ => by simp [updateParticleFrame, h], fun h0 => absurd h (not_lt.mpr h0),
      ?_, fun hle => ?_, fun _ => ?_, by simp [emitParticle]⟩
    · simp only [updateParticleFrame, if_pos h]
      linarith
    · simp only [updateParticleFrame, if_pos h]
      linarith
    · simp only [updateParticleFrame, if_pos h]
      linarith
  · refine ⟨fun h0 => absurd h0 h, fun _ => ⟨by simp [updateParticleFrame, h], by
      simp [updateParticleFrame, h]⟩, ?_, fun hle => ?_, fun h0 => ?_,
      by simp [emitParticle]⟩
    · simp [updateParticleFrame, h]
    · simp only [updateParticleFrame, if_neg h]
      exact hle
    · simp only [updateParticleFrame, if_neg h]
      linarith

/-- Witness for the amended C4 at a concrete active particle: life 1
with delta 0.1 decrements to exactly `1 - 0.1`. -/
theorem particle_life_amended_invariant_witness :
    0 ≤ (1 : ℚ) / 10 ∧
    ((updateParticleFrame (fun _ _ _ => 0) 0 (1 / 10)
        (Particle.mk Vec3.zero Vec3.zero 1 2)).1).life = 1 - 1 / 10 :=
  ⟨by norm_num,
   (particle_life_amended_invariant (fun _ _ _ => 0) 0 (1 / 10) Vec3.zero Vec3.zero
      (Particle.mk Vec3.zero Vec3.zero 1 2) (by norm_num)).1 (by norm_num)⟩

/-- Claim C2: for a steering step with delta `d > 0` the clamped
steering force has (squared) magnitude at most `(maxForce * d)²`; the
new velocity is exactly `(velocity + steeringForce) * damping`
(acceleration enters the step zeroed — it is reset at the end of every
step and starts at zero — so damping acts after force integration every
frame, steering force zero or not); consequently the new velocity's
squared magnitude is at most `((|velocity| + maxForce * d) * damping)²`.
Magnitudes are irrational in general, so the bounds are stated on
squares with the length oracles `fLen`, `vLen` pinned to the true
lengths by the hypotheses. -/
theorem steering_force_clamped_velocity_bounded
    (P : FlightParams) (target : Vec3) (pl : PlaneState) (delta dist fLen vLen : ℚ)
    (hdelta : 0 < delta) (hforce : 0 ≤ P.maxForce)
    (hacc : pl.acceleration = Vec3.zero)
    (hfLen0 : 0 ≤ fLen)
    (hfLen : fLen ^ 2 =
      ((desiredVelocity P target pl.position dist delta).sub pl.velocity).lengthSq)
    (hvLen0 : 0 ≤ vLen) (hvLen : vLen ^ 2 = pl.velocity.lengthSq) :
    (steeringForce P target pl delta dist fLen).lengthSq ≤ (P.maxForce * delta) ^ 2 ∧
    (steerStep P target pl delta dist fLen).velocity =
      (pl.velocity.add (steeringForce P target pl delta dist fLen)).multiplyScalar P.damping ∧
    (steerStep P target pl delta dist fLen).velocity.lengthSq ≤
      ((vLen + P.maxForce * delta) * P.damping) ^ 2 := by
  set hi := P.maxForce * delta with hhi_def
  have hhi : 0 ≤ hi := mul_nonneg hforce (le_of_lt hdelta)
  set m := max 0 (min hi fLen) with hm_def
  have hm0 : 0 ≤ m := le_max_left _ _
  have hmhi : m ≤ hi := max_le hhi (min_le_left _ _)
  have hFsq : (steeringForce P target pl delta dist fLen).lengthSq = m ^ 2 := by
    unfold steeringForce
    exact Vec3.clampLengthWith_lengthSq _ fLen hi hfLen0 hfLen hhi
  have part1 : (steeringForce P target pl delta dist fLen).lengthSq ≤ hi ^ 2 := by
    rw [hFsq]
    nlinarith [hm0, hmhi]
  have part2 : (steerStep P target pl delta dist fLen).velocity =
      (pl.velocity.add (steeringForce P target pl delta dist fLen)).multiplyScalar P.damping := by
    simp [steerStep, hacc, Vec3.zero_add_vec]
  refine ⟨part1, part2, ?_⟩
  rw [part2, Vec3.lengthSq_multiplyScalar]
  have htri : (pl.velocity.add (steeringForce P target pl delta dist fLen)).lengthSq ≤
      (vLen + m) ^ 2 :=
    Vec3.lengthSq_add_le _ _ vLen m hvLen0 hvLen hm0 hFsq.symm
  have hmono : (vLen + m) ^ 2 ≤ (vLen + hi) ^ 2 := by nlinarith [hvLen0, hm0, hmhi]
  calc P.damping ^ 2 * (pl.velocity.add (steeringForce P target pl delta dist fLen)).lengthSq
      ≤ P.damping ^ 2 * (vLen + hi) ^ 2 := by
        apply mul_le_mul_of_nonneg_left (le_trans htri hmono) (sq_nonneg _)
    _ = ((vLen + hi) * P.damping) ^ 2 := by ring

/-- Witness for C2: plane at rest at the origin, target `(300, 400, 0)`
(distance 500), delta 0.1 — the un-clamped steering force is
`(48, 64, 0)` of length 80, clamped to `maxForce * delta = 2.5`, and
the damped velocity satisfies the bound. -/
theorem steering_force_clamped_velocity_bounded_witness :
    0 < (1 : ℚ) / 10 ∧
    (steerStep (flightParams 800) ⟨300, 400, 0⟩ ⟨Vec3.zero, Vec3.zero, Vec3.zero⟩
        (1 / 10) 500 80).velocity.lengthSq ≤
      ((0 + (flightParams 800).maxForce * (1 / 10)) * (flightParams 800).damping) ^ 2 :=
  ⟨by norm_num,
   (steering_force_clamped_velocity_bounded (flightParams 800) ⟨300, 400, 0⟩
      ⟨Vec3.zero, Vec3.zero, Vec3.zero⟩ (1 / 10) 500 80 0
      (by norm_num) (by norm_num [flightParams]) rfl
      (by norm_num)
      (by norm_num [desiredVelocity, desiredSpeed, flightParams, Vec3.sub, Vec3.normalizeWith,
            Vec3.multiplyScalar, Vec3.lengthSq, Vec3.zero])
      (by norm_num) (by norm_num [Vec3.lengthSq, Vec3.zero])).2.2⟩

/-! ### Projection lemmas about the frame step and event dispatch -/

lemma frameStep_trailParticles_length (P : FlightParams) (o : FrameOracle) (s : SysState) :
    (frameStep P o s).trailParticles.length = s.trailParticles.length := by
  simp only [frameStep]
  split_ifs <;> simp [emitIntoPool]

lemma frameStep_hasMoved (P : FlightParams) (o : FrameOracle) (s : SysState) :
    (frameStep P o s).hasMoved = s.hasMoved := by
  simp only [frameStep]
  split_ifs <;> rfl

lemma frameStep_mouseTarget (P : FlightParams) (o : FrameOracle) (s : SysState) :
    (frameStep P o s).mouseTarget = s.mouseTarget := by
  simp only [frameStep]
  split_ifs <;> rfl

lemma frameStep_particleIndex (P : FlightParams) (o : FrameOracle) (s : SysState) :
    (frameStep P o s).particleIndex = s.particleIndex ∨
    (frameStep P o s).particleIndex = (s.particleIndex + 1) % MAX_PARTICLES := by
  simp only [frameStep]
  split_ifs <;> simp

lemma frameStep_emitCount_idle (P : FlightParams) (o : FrameOracle) (s : SysState)
    (h : s.hasMoved = false) : (frameStep P o s).emitCount = s.emitCount := by
  simp only [frameStep]
  split_ifs with h1 h2
  · rfl
  · rw [h] at h2
    simp at h2
  · rfl

lemma frameStep_plane (P : FlightParams) (o : FrameOracle) (s : SysState)
    (h : ¬ clampedDelta o.rawDelta = 0) :
    (frameStep P o s).plane =
      steerStep P s.mouseTarget s.plane (clampedDelta o.rawDelta) o.dist o.fLen := by
  simp only [frameStep, if_neg h]
  split_ifs <;> rfl

lemma frameStep_plane_zero (P : FlightParams) (o : FrameOracle) (s : SysState)
    (h : clampedDelta o.rawDelta = 0) : frameStep P o s = s := by
  simp [frameStep, h]

lemma runEvents_cons (P : FlightParams) (e : Event) (es : List Event) (s : SysState) :
    runEvents P (e :: es) s = runEvents P es (stepEvent P e s) := rfl

lemma stepEvent_frame (P : FlightParams) (o : FrameOracle) (s : SysState) :
    stepEvent P (Event.frame o) s = frameStep P o s := rfl

lemma runEvents_trailParticles_length (P : FlightParams) (events : List Event) :
    ∀ s : SysState,
      (runEvents P events s).trailParticles.length = s.trailParticles.length := by
  induction events with
  | nil => intro s; rfl
  | cons e es ih =>
    intro s
    rw [runEvents_cons, ih]
    cases e with
    | mouseMove x y => rfl
    | frame o => exact frameStep_trailParticles_length P o s

lemma runEvents_particleIndex_lt (P : FlightParams) (events : List Event) :
    ∀ s : SysState, s.particleIndex < MAX_PARTICLES →
      (runEvents P events s).particleIndex < MAX_PARTICLES := by
  induction events with
  | nil => intro s h; exact h
  | cons e es ih =>
    intro s h
    rw [runEvents_cons]
    refine ih _ ?_
    cases e with
    | mouseMove x y => exact h
    | frame o =>
      rw [stepEvent_frame]
      rcases frameStep_particleIndex P o s with hsame | hmod
      · rw [hsame]; exact h
      · rw [hmod]; exact Nat.mod_lt _ (by norm_num [MAX_PARTICLES])

/-- Claim C7: the pool is allocated once with one slot per `maxLife`
draw (`MAX_PARTICLES = 1000` in the source) and its length never
changes over any event sequence; the write cursor stays below
`MAX_PARTICLES`; each emission overwrites exactly the slot at the
cursor — regardless of that slot's previous particle — and leaves all
other slots untouched, and the cursor advances to
`(cursor + 1) % MAX_PARTICLES`. -/
theorem pool_fixed_capacity_ring_buffer :
    (∀ (P : FlightParams) (maxLifes : List ℚ) (events : List Event),
      (runEvents P events (initState maxLifes)).trailParticles.length = maxLifes.length ∧
      (runEvents P events (initState maxLifes)).particleIndex < MAX_PARTICLES) ∧
    (∀ (pool : List Particle) (cursor : ℕ) (v t : Vec3) (d : ℚ),
      (emitIntoPool pool cursor v t d).length = pool.length ∧
      (cursor < pool.length →
        (emitIntoPool pool cursor v t d)[cursor]? =
          some (emitParticle v t d (pool.getD cursor Particle.defaultSlot))) ∧
      (∀ j, j ≠ cursor → (emitIntoPool pool cursor v t d)[j]? = pool[j]?)) ∧
    ∀ (P : FlightParams) (o : FrameOracle) (s : SysState),
      (frameStep P o s).particleIndex = s.particleIndex ∨
      (frameStep P o s).particleIndex = (s.particleIndex + 1) % MAX_PARTICLES := by
  refine ⟨fun P maxLifes events => ⟨?_, ?_⟩, fun pool cursor v t d => ⟨?_, fun h => ?_, ?_⟩,
    frameStep_particleIndex⟩
  · rw [runEvents_trailParticles_length]
    simp [initState]
  · exact runEvents_particleIndex_lt P events _ (by simp [initState, MAX_PARTICLES])
  · simp [emitIntoPool]
  · exact List.getElem?_set_eq_of_lt _ h
  · intro j hj
    exact List.getElem?_set_ne (Ne.symm hj)

/-- Witness for C7: emitting into a one-slot pool at cursor 0
overwrites slot 0 with the emitted particle. -/
theorem pool_fixed_capacity_ring_buffer_witness :
    0 < [Particle.defaultSlot].length ∧
    (emitIntoPool [Particle.defaultSlot] 0 Vec3.zero Vec3.zero 1)[0]? =
      some (emitParticle Vec3.zero Vec3.zero 1
        ([Particle.defaultSlot].getD 0 Particle.defaultSlot)) :=
  ⟨by norm_num,
   (pool_fixed_capacity_ring_buffer.2.1 [Particle.defaultSlot] 0 Vec3.zero Vec3.zero 1).2.1
     (by norm_num)⟩

/-- In every reachable state the acceleration accumulator is zero: it
starts zeroed and `plane.acceleration.multiplyScalar(0)` resets it at
the end of every steering step, so the steering force is the only
contribution each frame (this discharges the acceleration hypothesis
of the velocity-equation theorem at reachable states). -/
lemma runEvents_acceleration_zero (P : FlightParams) (maxLifes : List ℚ)
    (events : List Event) :
    (runEvents P events (initState maxLifes)).plane.acceleration = Vec3.zero := by
  have key : ∀ (es : List Event) (s : SysState), s.plane.acceleration = Vec3.zero →
      (runEvents P es s).plane.acceleration = Vec3.zero := by
    intro es
    induction es with
    | nil => intro s h; exact h
    | cons e es ih =>
      intro s h
      rw [runEvents_cons]
      refine ih _ ?_
      cases e with
      | mouseMove x y => exact h
      | frame o =>
        rw [stepEvent_frame]
        by_cases hz : clampedDelta o.rawDelta = 0
        · rw [frameStep_plane_zero P o s hz]; exact h
        · rw [frameStep_plane P o s hz]; rfl
  exact key events _ rfl

/-- Claim C8: while the system is Idle (`hasMoved = false`, before the
first `mousemove`) no particle is ever emitted — the emission count
stays 0 over any frame-only event sequence; the first `mousemove`
switches `hasMoved` to true, and no event ever switches it back. -/
theorem idle_suppresses_emission :
    (∀ (P : FlightParams) (maxLifes : List ℚ) (events : List Event),
      (∀ e ∈ events, ∀ x y : ℚ, e ≠ Event.mouseMove x y) →
      (runEvents P events (initState maxLifes)).emitCount = 0 ∧
      (runEvents P events (initState maxLifes)).hasMoved = false) ∧
    (∀ (P : FlightParams) (x y : ℚ) (s : SysState),
      (stepEvent P (Event.mouseMove x y) s).hasMoved = true) ∧
    ∀ (P : FlightParams) (e : Event) (s : SysState),
      s.hasMoved = true → (stepEvent P e s).hasMoved = true := by
  have key : ∀ (P : FlightParams) (events : List Event),
      (∀ e ∈ events, ∀ x y : ℚ, e ≠ Event.mouseMove x y) →
      ∀ s : SysState, s.emitCount = 0 → s.hasMoved = false →
      (runEvents P events s).emitCount = 0 ∧ (runEvents P events s).hasMoved = false := by
    intro P events
    induction events with
    | nil => intro _ s hc hm; exact ⟨hc, hm⟩
    | cons e es ih =>
      intro hall s hc hm
      rw [runEvents_cons]
      cases e with
      | mouseMove x y => exact absurd rfl (hall _ (by simp) x y)
      | frame o =>
        refine ih (fun e he => hall e (by simp [he])) _ ?_ ?_
        · rw [stepEvent_frame, frameStep_emitCount_idle P o s hm]; exact hc
        · rw [stepEvent_frame, frameStep_hasMoved]; exact hm
  refine ⟨fun P maxLifes events hall => key P events hall _ rfl rfl, fun P x y s => rfl,
    fun P e s h => ?_⟩
  cases e with
  | mouseMove x y => rfl
  | frame o => rw [stepEvent_frame, frameStep_hasMoved]; exact h

/-- Witness for C8: one frame from the initial state (no prior
`mousemove`) emits nothing and stays Idle. -/
theorem idle_suppresses_emission_witness :
    (runEvents (flightParams 800)
        [Event.frame ⟨1 / 10, 1, 500, 80, 49, Vec3.zero, fun _ _ _ => 0⟩]
        (initState [2])).emitCount = 0 ∧
    (runEvents (flightParams 800)
        [Event.frame ⟨1 / 10, 1, 500, 80, 49, Vec3.zero, fun _ _ _ => 0⟩]
        (initState [2])).hasMoved = false :=
  idle_suppresses_emission.1 (flightParams 800) [2]
    [Event.frame ⟨1 / 10, 1, 500, 80, 49, Vec3.zero, fun _ _ _ => 0⟩]
    (by intro e he x y; simp at he; subst he; simp)

/-! ### Planar-motion invariant -/

lemma steeringForce_z (P : FlightParams) (target : Vec3) (pl : PlaneState)
    (delta dist fLen : ℚ) (ht : target.z = 0) (hp : pl.position.z = 0)
    (hv : pl.velocity.z = 0) :
    (steeringForce P target pl delta dist fLen).z = 0 := by
  simp only [steeringForce, desiredVelocity, Vec3.clampLengthWith, Vec3.normalizeWith,
    Vec3.sub, Vec3.multiplyScalar]
  split_ifs <;> simp [ht, hp, hv]

lemma steerStep_planar (P : FlightParams) (target : Vec3) (pl : PlaneState)
    (delta dist fLen : ℚ) (ht : target.z = 0) (hp : pl.position.z = 0)
    (hv : pl.velocity.z = 0) (ha : pl.acceleration.z = 0) :
    (steerStep P target pl delta dist fLen).position.z = 0 ∧
    (steerStep P target pl delta dist fLen).velocity.z = 0 ∧
    (steerStep P target pl delta dist fLen).acceleration.z = 0 := by
  have hF := steeringForce_z P target pl delta dist fLen ht hp hv
  simp [steerStep, Vec3.add, Vec3.multiplyScalar, Vec3.zero, hF, hp, hv, ha]

/-- All the z-components that feed the steering step are zero. -/
def planarInv (s : SysState) : Prop :=
  s.mouseTarget.z = 0 ∧ s.plane.position.z = 0 ∧ s.plane.velocity.z = 0 ∧
    s.plane.acceleration.z = 0

lemma stepEvent_planar (P : FlightParams) (e : Event) (s : SysState)
    (h : planarInv s) : planarInv (stepEvent P e s) := by
  obtain ⟨ht, hp, hv, ha⟩ := h
  cases e with
  | mouseMove x y => exact ⟨ht, hp, hv, ha⟩
  | frame o =>
    rw [stepEvent_frame]
    by_cases hz : clampedDelta o.rawDelta = 0
    · rw [frameStep_plane_zero P o s hz]; exact ⟨ht, hp, hv, ha⟩
    · have hpl := frameStep_plane P o s hz
      have hs := steerStep_planar P s.mouseTarget s.plane (clampedDelta o.rawDelta)
        o.dist o.fLen ht hp hv ha
      refine ⟨?_, ?_, ?_, ?_⟩
      · rw [frameStep_mouseTarget]; exact ht
      · rw [hpl]; exact hs.1
      · rw [hpl]; exact hs.2.1
      · rw [hpl]; exact hs.2.2

/-- Claim C10: in every reachable state the plane's steering position
and velocity have z-component exactly 0 — the initial state is zeroed,
`handleMouseMove` writes only the target's x and y, and every vector
operation of the steering step preserves a zero z-component and a zero
target z, so the cursor-steered plane moves only in the `z = 0` plane. -/
theorem planar_motion_invariant (P : FlightParams) (maxLifes : List ℚ)
    (events : List Event) :
    (runEvents P events (initState maxLifes)).plane.position.z = 0 ∧
    (runEvents P events (initState maxLifes)).plane.velocity.z = 0 := by
  have key : ∀ (es : List Event) (s : SysState), planarInv s →
      planarInv (runEvents P es s) := by
    intro es
    induction es with
    | nil => intro s h; exact h
    | cons e es ih =>
      intro s h
      rw [runEvents_cons]
      exact ih _ (stepEvent_planar P e s h)
  have h0 : planarInv (initState maxLifes) := by
    refine ⟨rfl, rfl, rfl, rfl⟩
  exact ⟨(key events _ h0).2.1, (key events _ h0).2.2.1⟩

end PaperPlane
